import Mathlib

/-!
Verification of the partner-scoped data-access pattern of the DiaryForTwo
web application.  Each definition is a shallow embedding of one function of
the TypeScript client (`src/pages/*.tsx`) or of a row-level-security (RLS)
policy of the SQL migration; JavaScript numbers that only ever hold small
integers or exact fractions are modelled by `Nat`/`ℚ`, user ids by `Nat`,
and JS strings by `String`.
-/

namespace DiaryForTwo

/-! ### Mood histogram (`calculateMoodStats`, MoodTracker.tsx)

The source tallies moods in a JS object (string keys keep insertion order,
i.e. first-encounter order — the mood names are never integer-like), maps
the entries to `{mood, count, percentage}` records and sorts them with the
stable `Array.prototype.sort` under the comparator `(a, b) => b.count -
a.count`, i.e. a stable sort by count descending. -/

structure MoodStats where
  mood : String
  count : Nat
  percentage : ℚ
deriving DecidableEq, Repr

/-- One step of the tally loop `moodCounts[mood] = (moodCounts[mood] || 0) + 1`:
increment the entry if the key is present, otherwise append a fresh entry
(JS objects append new string keys at the end). -/
def tallyStep (acc : List (String × Nat)) (mood : String) : List (String × Nat) :=
  if acc.any (fun p => p.1 == mood) then
    acc.map (fun p => if p.1 == mood then (p.1, p.2 + 1) else p)
  else acc ++ [(mood, 1)]

/-- The `moodCounts` object after the `moods.forEach` loop. -/
def moodTally (moods : List String) : List (String × Nat) :=
  moods.foldl tallyStep []

/-- Stable insertion of one record into a list sorted by count descending:
keep every head whose count is strictly larger, so that an element inserted
later (= earlier in the pre-sort list, see `sortStats`) lands before records
of equal count. -/
def insertByCount (x : MoodStats) : List MoodStats → List MoodStats
  | [] => [x]
  | y :: ys => if x.count < y.count then y :: insertByCount x ys else x :: y :: ys

/-- Stable sort by count descending, modelling ES2019 `Array.prototype.sort`
with comparator `(a, b) => b.count - a.count` (stable by specification). -/
def sortStats (l : List MoodStats) : List MoodStats :=
  l.foldr insertByCount []

/-- One record of the `Object.entries(moodCounts).map(...)` step:
`percentage: total > 0 ? (count / total) * 100 : 0` (JS numbers modelled
by exact rationals). -/
def moodStatsOf (total : Nat) (p : String × Nat) : MoodStats :=
  { mood := p.1, count := p.2,
    percentage := if total > 0 then (p.2 : ℚ) / (total : ℚ) * 100 else 0 }

/-- `calculateMoodStats` (MoodTracker.tsx lines 94–110). -/
def calculateMoodStats (moods : List String) : List MoodStats :=
  let total := moods.length
  sortStats ((moodTally moods).map (moodStatsOf total))

/-! ### Form-input validation (`!field.trim()` guards)

JS `String.prototype.trim` strips leading and trailing whitespace; `!s`
on the trimmed string is `true` exactly when the result is empty.  Lean's
own `String.trim` is equivalent but does not reduce inside the kernel, so
the embedding strips whitespace on the character list. -/

/-- JS `s.trim()`: drop leading and trailing whitespace characters. -/
def trimChars (s : String) : String :=
  ⟨List.reverse (List.dropWhile Char.isWhitespace
    (List.reverse (List.dropWhile Char.isWhitespace s.data)))⟩

/-- A mutation attempt as the UI handlers produce it: the insert request
sent to the backend (`none` when a guard returned early) and whether the
handler surfaced any error to the caller on its synchronous path (the
validation guards are bare `return` statements, so they never do; backend
round-trip failures are outside these definitions). -/
structure MutationAttempt (ρ : Type) where
  request : Option ρ
  errorReported : Bool
deriving DecidableEq, Repr

/-- A `posts` insert row as built by `handleSubmitPost` (Timeline.tsx). -/
structure PostInsert where
  user_id : Nat
  content : String
  mood : String
  image_url : Option String
  song_link : Option String
  is_miss_you : Bool
deriving DecidableEq, Repr

/-- `handleSubmitPost` (Timeline.tsx lines 96–121): guard
`if (!newPost.trim() || !user) return;`, then insert. -/
def handleSubmitPost (newPost selectedMood imageUrl songLink : String)
    (user : Option Nat) : MutationAttempt PostInsert :=
  match user with
  | none => ⟨none, false⟩
  | some uid =>
    if trimChars newPost = "" then ⟨none, false⟩
    else
      ⟨some { user_id := uid, content := newPost, mood := selectedMood,
              image_url := if imageUrl = "" then none else some imageUrl,
              song_link := if songLink = "" then none else some songLink,
              is_miss_you := false }, false⟩

/-- A `playlist` insert row as built by `handleAddSong` (Playlist page). -/
structure SongInsert where
  user_id : Nat
  song_title : String
  song_url : String
deriving DecidableEq, Repr

/-- `handleAddSong` (Playlist page, lines 251–275 of the concatenated
MoodTracker source): guard `if (!songTitle.trim() || !songUrl.trim() ||
!user) return;`, then insert. -/
def handleAddSong (songTitle songUrl : String) (user : Option Nat) :
    MutationAttempt SongInsert :=
  match user with
  | none => ⟨none, false⟩
  | some uid =>
    if trimChars songTitle = "" ∨ trimChars songUrl = "" then ⟨none, false⟩
    else ⟨some { user_id := uid, song_title := songTitle, song_url := songUrl }, false⟩

/-- A `photos` insert row as built by `handleAddPhoto` (Photos page). -/
structure PhotoInsert where
  user_id : Nat
  photo_url : String
  caption : Option String
deriving DecidableEq, Repr

/-- `handleAddPhoto` (Photos page): guard `if (!photoUrl.trim() || !user)
return;`, then insert with `caption: caption || null`. -/
def handleAddPhoto (photoUrl caption : String) (user : Option Nat) :
    MutationAttempt PhotoInsert :=
  match user with
  | none => ⟨none, false⟩
  | some uid =>
    if trimChars photoUrl = "" then ⟨none, false⟩
    else ⟨some { user_id := uid, photo_url := photoUrl,
                 caption := if caption = "" then none else some caption }, false⟩

/-- A `quotes` insert row as built by `handleAddQuote` (Quotes.tsx). -/
structure QuoteInsert where
  user_id : Nat
  quote_text : String
deriving DecidableEq, Repr

/-- `handleAddQuote` (Quotes.tsx lines 58–80): guard `if (!quoteText.trim()
|| !user) return;`, then `insert([{ user_id: user.id, quote_text }])` —
note that the row's `user_id` is the caller's own id. -/
def handleAddQuote (quoteText : String) (user : Option Nat) :
    MutationAttempt QuoteInsert :=
  match user with
  | none => ⟨none, false⟩
  | some uid =>
    if trimChars quoteText = "" then ⟨none, false⟩
    else ⟨some { user_id := uid, quote_text := quoteText }, false⟩

/-- A `chat_messages` insert row as built by `handleSendMessage` (Chat.tsx). -/
structure MessageInsert where
  sender_id : Nat
  message : String
deriving DecidableEq, Repr

/-- `handleSendMessage` (Chat.tsx lines 61–78): guard `if (!newMessage.trim()
|| !user) return;`, then insert. -/
def handleSendMessage (newMessage : String) (user : Option Nat) :
    MutationAttempt MessageInsert :=
  match user with
  | none => ⟨none, false⟩
  | some uid =>
    if trimChars newMessage = "" then ⟨none, false⟩
    else ⟨some { sender_id := uid, message := newMessage }, false⟩

/-! ### Quote creation policy (SQL migration, lines 269–274)

`CREATE POLICY "Users can create quotes for partner" ON quotes FOR INSERT
WITH CHECK (user_id IN (SELECT partner_id FROM profiles WHERE id =
auth.uid()))`.  The subquery yields the caller's `partner_id` (possibly
NULL); `x IN {NULL}` is not true in SQL, so the check passes exactly when
the caller has a partner and the row's `user_id` equals it. -/

/-- The `WITH CHECK` of the quotes INSERT policy, for caller `authUid`
whose profile row carries `partnerId`. -/
def quotesInsertAllowed (partnerId : Option Nat) (rowUserId : Nat) : Bool :=
  match partnerId with
  | some p => rowUserId == p
  | none => false

/-! ### Timeline fetch scoping (`loadPosts`, Timeline.tsx lines 38–55)

The client adds an owner filter to the query only in the three guarded
branches; in every other case (in particular audience `theirs` with no
linked partner) no owner filter is attached and the backend returns every
row its RLS SELECT policy makes visible. -/

/-- A stored `posts` row (fields relevant to scoping). -/
structure PostRow where
  id : Nat
  user_id : Nat
deriving DecidableEq, Repr

/-- The timeline audience buttons `'all' | 'mine' | 'theirs'`. -/
inductive TimelineFilter
  | all
  | mine
  | theirs
deriving DecidableEq, Repr

/-- The owner filter `loadPosts` attaches to the query: `some ids` embeds
`.eq('user_id', …)` / `.in('user_id', …)`, `none` means no filter was
attached.  Branch order follows the source. -/
def postsQueryFilter : TimelineFilter → Option Nat → Option Nat → Option (List Nat)
  | .mine, some u, _ => some [u]
  | .theirs, _, some p => some [p]
  | _, some u, some p => some [u, p]
  | _, _, _ => none

/-- The RLS SELECT policy on `posts`: visible iff the row is the viewer's
own or owned by the viewer's linked partner. -/
def postsRlsVisible (viewer : Nat) (partnerId : Option Nat) (rowOwner : Nat) : Bool :=
  rowOwner == viewer || partnerId == some rowOwner

/-- The rows a `loadPosts` fetch returns (ordering by `created_at`
elided): server-side RLS intersected with the client's owner filter. -/
def loadPostsRows (filter : TimelineFilter) (viewer : Nat)
    (partnerId : Option Nat) (db : List PostRow) : List PostRow :=
  db.filter (fun post =>
    postsRlsVisible viewer partnerId post.user_id &&
    (match postsQueryFilter filter (some viewer) partnerId with
     | none => true
     | some ids => ids.contains post.user_id))

/-! ### Reaction toggle (`handleReaction`, Timeline.tsx lines 145–174) -/

/-- `reaction_type text CHECK (reaction_type IN ('love','hug','smile'))`. -/
inductive ReactionType
  | love
  | hug
  | smile
deriving DecidableEq, Repr

/-- A stored `reactions` row. -/
structure ReactionRow where
  id : Nat
  post_id : Nat
  user_id : Nat
  reaction_type : ReactionType
deriving DecidableEq, Repr

/-- The caller's reactions on one post: `loadPosts` groups the fetched
reactions by `post_id` in fetch order, and the handler then also selects on
`user_id`. -/
def reactionsFor (db : List ReactionRow) (postId userId : Nat) : List ReactionRow :=
  db.filter (fun r => r.post_id == postId && r.user_id == userId)

/-- `handleReaction(postId, reactionType)` acting on the reactions table,
with the client cache assumed fresh (the handler re-fetches after every
write).  `existingReaction` is
`reactions[postId]?.find(r => r.user_id === user.id)`; same kind deletes
the row by id, a different kind updates it in place, no existing reaction
inserts a new row (`freshId` models `gen_random_uuid()`). -/
def handleReaction (db : List ReactionRow) (userId postId : Nat)
    (reactionType : ReactionType) (freshId : Nat) : List ReactionRow :=
  match (db.filter (fun r => r.post_id == postId)).find? (fun r => r.user_id == userId) with
  | some existingReaction =>
    if existingReaction.reaction_type = reactionType then
      db.filter (fun r => r.id != existingReaction.id)
    else
      db.map (fun r => if r.id = existingReaction.id
        then { r with reaction_type := reactionType } else r)
  | none =>
    db ++ [{ id := freshId, post_id := postId, user_id := userId,
             reaction_type := reactionType }]

/-- At most one reaction per (post, caller) — the `UNIQUE(post_id, user_id)`
constraint of the migration. -/
def AtMostOneReaction (db : List ReactionRow) : Prop :=
  ∀ p u, (reactionsFor db p u).length ≤ 1

/-! ### Diary upsert (`handleSave`, Diary.tsx lines 69–102)

The client issues every diary read and write against the relation named
`daily_diary` (Diary.tsx lines 35, 48, 78, 84; also MoodTracker.tsx lines
48 and 70), while the migration creates a relation named `daily_diaries`.
A request naming a relation absent from the schema is answered
relation-not-found by the backend, which the handler's `catch` merely
logs; so the embedding carries the schema's table list and the targeted
table name explicitly. -/

/-- The relations `20251021144512_create_initial_schema.sql` creates. -/
def migrationTables : List String :=
  ["profiles", "posts", "reactions", "photos", "playlist",
   "daily_diaries", "quotes", "chat_messages"]

/-- The relation name every diary read and write targets:
`supabase.from('daily_diary')`. -/
def diaryTableName : String := "daily_diary"

/-- A stored diary row. -/
structure DiaryRow where
  id : Nat
  user_id : Nat
  date : String
  content : String
  mood : String
deriving DecidableEq, Repr

/-- The caller's entries for one calendar day. -/
def diaryEntriesFor (db : List DiaryRow) (userId : Nat) (date : String) : List DiaryRow :=
  db.filter (fun e => e.user_id == userId && e.date == date)

/-- `handleSave` acting against a backend whose schema holds the relations
in `tables`: the guard `if (!content.trim() || !user) return;` comes first;
otherwise the update/insert is issued to table `daily_diary`.  When that
relation exists, `todayEntry` — the `maybeSingle()` of
`.eq('user_id', user.id).eq('date', today)`, modelled as the head of the
matching rows (unique under `UNIQUE(user_id, date)`) — selects update-by-id
versus insert.  When the relation does not exist, the backend answers
relation-not-found, the `catch` only logs it (`console.error`), and the
rows are unchanged.  Returns the targeted relation's rows afterwards and
whether an error was logged. -/
def handleSave (tables : List String) (db : List DiaryRow) (userId : Nat)
    (today content mood : String) (freshId : Nat) : List DiaryRow × Bool :=
  if trimChars content = "" then (db, false)
  else if diaryTableName ∈ tables then
    match (diaryEntriesFor db userId today).head? with
    | some todayEntry =>
      (db.map (fun r => if r.id = todayEntry.id
        then { r with content := content, mood := mood } else r), false)
    | none =>
      (db ++ [{ id := freshId, user_id := userId, date := today,
                content := content, mood := mood }], false)
  else (db, true)

/-- One `handleSave` call of a consecutive run: content, mood and the fresh
id the insert would use. -/
structure SaveCall where
  content : String
  mood : String
  freshId : Nat
deriving DecidableEq, Repr

/-- `N` consecutive `handleSave` calls for the same caller and date. -/
def saveDiaryRun (tables : List String) (db : List DiaryRow) (userId : Nat)
    (today : String) (calls : List SaveCall) : List DiaryRow :=
  calls.foldl (fun acc c =>
    (handleSave tables acc userId today c.content c.mood c.freshId).1) db

/-! ### Live-collection failure (`loadPosts` try/catch, Timeline.tsx 38–78)

State per the React page: `posts` (initially `[]`) and `loading`
(initially `true`).  A completed fetch replaces `posts` wholesale; the
`catch` branch only logs the error (`console.error`) and the `finally`
branch clears `loading`, so a failed fetch leaves `posts` untouched. -/

/-- Result of one `loadPosts` round: the new `(posts, loading)` pair and
whether `console.error` ran. -/
def loadPostsStep (posts : List PostRow) (loading : Bool)
    (fetch : Except String (List PostRow)) : (List PostRow × Bool) × Bool :=
  match fetch with
  | .ok data => ((data, false), false)
  | .error _ => ((posts, false), true)

/-- `useState` initial values of the Timeline page. -/
def initialTimelinePosts : List PostRow := []

/-! ### Memory Lane month filter (`loadMemories`, MemoryLane.tsx 38–51) -/

/-- A JS `Date`'s calendar day: `month` is 0-based as in `getMonth()`. -/
structure JsDate where
  year : Int
  month : Nat
  day : Nat
deriving DecidableEq, Repr

/-- Gregorian leap-year rule (as implemented by JS `Date`). -/
def isLeapYear (y : Int) : Bool :=
  y % 4 == 0 && (y % 100 != 0 || y % 400 == 0)

/-- Days in 0-based month `m` of year `y`. -/
def daysInMonth (y : Int) (m : Nat) : Nat :=
  if m = 1 then (if isLeapYear y then 29 else 28)
  else if m = 3 ∨ m = 5 ∨ m = 8 ∨ m = 10 then 30
  else 31

/-- JS `date.setMonth(date.getMonth() - 1)`: decrement the month (wrapping
the year), keeping the day-of-month; when the target month is shorter, JS
normalises by rolling the excess days into the following month (e.g.
March 30 → "February 30" → March 2). -/
def setMonthMinusOne (dt : JsDate) : JsDate :=
  let y := if dt.month = 0 then dt.year - 1 else dt.year
  let m := if dt.month = 0 then 11 else dt.month - 1
  let dim := daysInMonth y m
  if dt.day ≤ dim then ⟨y, m, dt.day⟩
  else if m = 11 then ⟨y + 1, 0, dt.day - dim⟩
  else ⟨y, m + 1, dt.day - dim⟩

/-- A timestamp as the filter compares it: a calendar day plus a
second-of-day (the code builds `YYYY-MM-DDT00:00:00` / `…T23:59:59`
bounds, compared as timestamps). -/
def dateLt (a b : JsDate) : Prop :=
  a.year < b.year ∨ (a.year = b.year ∧
    (a.month < b.month ∨ (a.month = b.month ∧ a.day < b.day)))

/-- Timestamp order: lexicographic on (day, second-of-day). -/
def tsLe (a b : JsDate × Nat) : Prop :=
  dateLt a.1 b.1 ∨ (a.1 = b.1 ∧ a.2 ≤ b.2)

/-- The window `loadMemories` queries for `filter === 'month'`:
`.gte('created_at', oneMonthAgoStr + 'T00:00:00').lte('created_at',
oneMonthAgoStr + 'T23:59:59')` where `oneMonthAgoStr` is the day of
`setMonth(getMonth() - 1)`. -/
def monthFilterWindow (today : JsDate) : (JsDate × Nat) × (JsDate × Nat) :=
  let oneMonthAgo := setMonthMinusOne today
  ((oneMonthAgo, 0), (oneMonthAgo, 86399))

/-- Membership of a timestamp in the fetch window. -/
def tsInWindow (w : (JsDate × Nat) × (JsDate × Nat)) (ts : JsDate × Nat) : Prop :=
  tsLe w.1 ts ∧ tsLe ts w.2

/-- Days since the civil epoch 1970-01-01 (Howard Hinnant's algorithm,
month 0-based as in `JsDate`); used only to measure distances between
concrete days. -/
def daysFromCivil (dt : JsDate) : Int :=
  let m : Int := dt.month + 1
  let y : Int := if m ≤ 2 then dt.year - 1 else dt.year
  let era : Int := (if 0 ≤ y then y else y - 399) / 400
  let yoe : Int := y - era * 400
  let mp : Int := (m + 9) % 12
  let doy : Int := (153 * mp + 2) / 5 + dt.day - 1
  let doe : Int := yoe * 365 + yoe / 4 - yoe / 100 + doy
  era * 146097 + doe - 719468

/-! ### Photo deletion guard (`handleDeletePhoto`, Photos page lines 78–89) -/

/-- A stored `photos` row (fields relevant to deletion). -/
structure PhotoRow where
  id : Nat
  user_id : Nat
deriving DecidableEq, Repr

/-- `handleDeletePhoto(photoId, photoUserId)`: the guard
`if (user?.id !== photoUserId) return;` makes the call a silent no-op for
non-owners; otherwise the delete request `.eq('id', photoId)` is issued
(the RLS DELETE policy additionally restricts it to the caller's own
rows).  Returns the table afterwards and whether a request was issued. -/
def handleDeletePhoto (user : Option Nat) (photoId photoUserId : Nat)
    (db : List PhotoRow) : List PhotoRow × Bool :=
  match user with
  | some uid =>
    if uid = photoUserId then
      (db.filter (fun p => !(p.id == photoId && p.user_id == uid)), true)
    else (db, false)
  | none => (db, false)

/-! ## Helper lemmas -/

theorem dateLt_asymm {a b : JsDate} (h1 : dateLt a b) (h2 : dateLt b a) : False := by
  obtain ⟨ya, ma, da⟩ := a
  obtain ⟨yb, mb, db⟩ := b
  simp only [dateLt] at h1 h2
  omega

theorem dateLt_irrefl {a : JsDate} (h : dateLt a a) : False :=
  dateLt_asymm h h

theorem filter_swap {α : Type} (p q : α → Bool) (l : List α) :
    (l.filter p).filter q = (l.filter q).filter p := by
  simp only [List.filter_filter]
  exact List.filter_congr (fun a _ => by rw [Bool.and_comm])

theorem eq_singleton_of_mem_of_len_le_one {α : Type} {x : α} {l : List α}
    (hx : x ∈ l) (hlen : l.length ≤ 1) : l = [x] := by
  match l, hx with
  | [a], hx => simp at hx; rw [hx]
  | a :: b :: t, _ => simp at hlen

/-- `existingReaction` — the grouped-then-searched cache lookup — is the
first of the caller's reactions on the post. -/
theorem find_reaction (db : List ReactionRow) (p u : Nat) :
    (db.filter (fun r => r.post_id == p)).find? (fun r => r.user_id == u) =
      (reactionsFor db p u).head? := by
  induction db with
  | nil => rfl
  | cons r t ih =>
    by_cases hp : r.post_id = p
    · by_cases hu : r.user_id = u
      · simp [reactionsFor, List.filter_cons, hp, hu, List.find?]
      · simpa [reactionsFor, List.filter_cons, hp, hu, List.find?] using ih
    · simpa [reactionsFor, List.filter_cons, hp] using ih

/-- Updating reaction kinds commutes with selecting a (post, caller) pair:
the update map touches neither `post_id` nor `user_id`. -/
theorem reactionsFor_map_update (db : List ReactionRow) (p u exid : Nat)
    (k : ReactionType) :
    reactionsFor (db.map (fun r => if r.id = exid
        then { r with reaction_type := k } else r)) p u =
      (reactionsFor db p u).map (fun r => if r.id = exid
        then { r with reaction_type := k } else r) := by
  rw [reactionsFor, List.filter_map, reactionsFor]
  congr 1
  exact List.filter_congr (fun r _ => by by_cases h : r.id = exid <;> simp [h])

/-- Against the migration's schema, every `handleSave` call leaves the
diary rows unchanged: the blank guard returns early and any non-blank
save is answered relation-not-found (`daily_diary` is not a relation the
migration creates). -/
theorem handleSave_missing_relation (db : List DiaryRow) (userId : Nat)
    (today content mood : String) (fid : Nat) :
    (handleSave migrationTables db userId today content mood fid).1 = db := by
  rw [handleSave]
  by_cases hc : trimChars content = ""
  · rw [if_pos hc]
  · rw [if_neg hc,
      if_neg (by decide : ¬(diaryTableName ∈ migrationTables))]

theorem saveDiaryRun_missing_relation (userId : Nat) (today : String) :
    ∀ (calls : List SaveCall) (db : List DiaryRow),
    saveDiaryRun migrationTables db userId today calls = db
  | [], _ => rfl
  | c :: rest, db => by
    calc saveDiaryRun migrationTables db userId today (c :: rest)
        = saveDiaryRun migrationTables
            (handleSave migrationTables db userId today
              c.content c.mood c.freshId).1 userId today rest := by
          simp [saveDiaryRun]
      _ = (handleSave migrationTables db userId today
            c.content c.mood c.freshId).1 :=
          saveDiaryRun_missing_relation userId today rest _
      _ = db := handleSave_missing_relation db userId today c.content c.mood c.freshId

/-- With no existing reaction, `handleReaction` inserts a fresh row. -/
theorem handleReaction_insert (db : List ReactionRow) (u p : Nat)
    (k : ReactionType) (fid : Nat) (h : reactionsFor db p u = []) :
    handleReaction db u p k fid = db ++ [⟨fid, p, u, k⟩] := by
  simp only [handleReaction, find_reaction, h, List.head?_nil]

theorem reactionsFor_insert (db : List ReactionRow) (u p : Nat)
    (k : ReactionType) (fid : Nat) (h : reactionsFor db p u = []) :
    reactionsFor (handleReaction db u p k fid) p u = [⟨fid, p, u, k⟩] := by
  rw [handleReaction_insert db u p k fid h]
  calc reactionsFor (db ++ [⟨fid, p, u, k⟩]) p u
      = reactionsFor db p u ++ reactionsFor [⟨fid, p, u, k⟩] p u := by
        simp only [reactionsFor, List.filter_append]
    _ = [⟨fid, p, u, k⟩] := by rw [h]; simp [reactionsFor]

/-- With an existing reaction of the same kind, `handleReaction` deletes
it: the caller ends with no reaction on the post. -/
theorem reactionsFor_toggle_off (db : List ReactionRow) (u p : Nat)
    (k : ReactionType) (fid : Nat) (ex : ReactionRow)
    (h : reactionsFor db p u = [ex]) (hk : ex.reaction_type = k) :
    reactionsFor (handleReaction db u p k fid) p u = [] := by
  have hfind : (reactionsFor db p u).head? = some ex := by rw [h]; rfl
  simp only [handleReaction, find_reaction, hfind, hk, if_pos]
  calc reactionsFor (db.filter (fun r => r.id != ex.id)) p u
      = (db.filter (fun r => r.id != ex.id)).filter
          (fun r => r.post_id == p && r.user_id == u) := rfl
    _ = (db.filter (fun r => r.post_id == p && r.user_id == u)).filter
          (fun r => r.id != ex.id) := filter_swap _ _ _
    _ = [ex].filter (fun r => r.id != ex.id) := by
        rw [show db.filter (fun r => r.post_id == p && r.user_id == u) = [ex] from h]
    _ = [] := by simp

/-- With an existing reaction of a different kind, `handleReaction`
updates it in place: same row id, new kind. -/
theorem reactionsFor_switch (db : List ReactionRow) (u p : Nat)
    (k : ReactionType) (fid : Nat) (ex : ReactionRow)
    (h : reactionsFor db p u = [ex]) (hk : ex.reaction_type ≠ k) :
    reactionsFor (handleReaction db u p k fid) p u =
      [{ ex with reaction_type := k }] := by
  have hfind : (reactionsFor db p u).head? = some ex := by rw [h]; rfl
  simp only [handleReaction, find_reaction, hfind]
  rw [if_neg hk, reactionsFor_map_update, h]
  simp

/-- Every toggle preserves the at-most-one-reaction-per-(post, caller)
invariant. -/
theorem handleReaction_preserves_invariant (db : List ReactionRow)
    (u p : Nat) (k : ReactionType) (fid : Nat)
    (hinv : AtMostOneReaction db) :
    AtMostOneReaction (handleReaction db u p k fid) := by
  intro q v
  rcases hh : (reactionsFor db p u).head? with - | ex
  · rw [List.head?_eq_none_iff] at hh
    rw [handleReaction_insert db u p k fid hh]
    have hsplit : reactionsFor (db ++ [⟨fid, p, u, k⟩]) q v =
        reactionsFor db q v ++ reactionsFor [⟨fid, p, u, k⟩] q v :=
      List.filter_append _ _
    rw [hsplit]
    by_cases hmatch : p = q ∧ u = v
    · obtain ⟨rfl, rfl⟩ := hmatch
      rw [hh]
      simpa using (List.length_filter_le _ _)
    · have hempty : reactionsFor [(⟨fid, p, u, k⟩ : ReactionRow)] q v = [] := by
        rcases Decidable.not_and_iff_or_not_not.mp hmatch with hne | hne <;>
          simp [reactionsFor, hne]
      rw [hempty, List.append_nil]
      exact hinv q v
  · simp only [handleReaction, find_reaction, hh]
    by_cases hk : ex.reaction_type = k
    · rw [if_pos hk]
      calc (reactionsFor (db.filter (fun r => r.id != ex.id)) q v).length
          = ((db.filter (fun r => r.id != ex.id)).filter
              (fun r => r.post_id == q && r.user_id == v)).length := rfl
        _ = ((reactionsFor db q v).filter (fun r => r.id != ex.id)).length := by
            rw [filter_swap]; rfl
        _ ≤ (reactionsFor db q v).length := List.length_filter_le _ _
        _ ≤ 1 := hinv q v
    · rw [if_neg hk, reactionsFor_map_update, List.length_map]
      exact hinv q v

theorem insertByCount_perm (x : MoodStats) :
    ∀ (l : List MoodStats), (insertByCount x l).Perm (x :: l)
  | [] => List.Perm.refl _
  | y :: ys => by
    rw [insertByCount]
    by_cases h : x.count < y.count
    · rw [if_pos h]
      exact ((insertByCount_perm x ys).cons y).trans (List.Perm.swap x y ys)
    · rw [if_neg h]

theorem sortStats_perm : ∀ (l : List MoodStats), (sortStats l).Perm l
  | [] => List.Perm.refl _
  | x :: xs =>
    (insertByCount_perm x (sortStats xs)).trans ((sortStats_perm xs).cons x)

theorem insertByCount_sorted (x : MoodStats) :
    ∀ (l : List MoodStats),
    List.Pairwise (fun a b => b.count ≤ a.count) l →
    List.Pairwise (fun a b => b.count ≤ a.count) (insertByCount x l)
  | [], _ => List.pairwise_singleton _ _
  | y :: ys, hp => by
    rw [insertByCount]
    rw [List.pairwise_cons] at hp
    by_cases h : x.count < y.count
    · rw [if_pos h, List.pairwise_cons]
      refine ⟨?_, insertByCount_sorted x ys hp.2⟩
      intro z hz
      rcases List.mem_cons.mp ((insertByCount_perm x ys).mem_iff.mp hz) with rfl | hz2
      · exact Nat.le_of_lt h
      · exact hp.1 z hz2
    · rw [if_neg h, List.pairwise_cons]
      refine ⟨?_, List.pairwise_cons.mpr hp⟩
      intro z hz
      rcases List.mem_cons.mp hz with rfl | hz2
      · omega
      · exact le_trans (hp.1 z hz2) (Nat.le_of_not_lt h)

theorem sortStats_sorted : ∀ (l : List MoodStats),
    List.Pairwise (fun a b => b.count ≤ a.count) (sortStats l)
  | [] => List.Pairwise.nil
  | x :: xs => insertByCount_sorted x (sortStats xs) (sortStats_sorted xs)

theorem insertByCount_stable (S : MoodStats → MoodStats → Prop) (x : MoodStats) :
    ∀ (l : List MoodStats),
    List.Pairwise (fun r s => r.count = s.count → S r s) l →
    (∀ y ∈ l, x.count = y.count → S x y) →
    List.Pairwise (fun r s => r.count = s.count → S r s) (insertByCount x l)
  | [], _, _ => List.pairwise_singleton _ _
  | y :: ys, hp, hx => by
    rw [insertByCount]
    rw [List.pairwise_cons] at hp
    by_cases h : x.count < y.count
    · rw [if_pos h, List.pairwise_cons]
      refine ⟨?_, insertByCount_stable S x ys hp.2
        (fun z hz he => hx z (List.mem_cons_of_mem _ hz) he)⟩
      intro z hz
      rcases List.mem_cons.mp ((insertByCount_perm x ys).mem_iff.mp hz) with rfl | hz2
      · intro he; omega
      · exact hp.1 z hz2
    · rw [if_neg h, List.pairwise_cons]
      exact ⟨fun z hz => hx z hz, List.pairwise_cons.mpr hp⟩

theorem sortStats_stable (S : MoodStats → MoodStats → Prop) :
    ∀ (l : List MoodStats), List.Pairwise S l →
    List.Pairwise (fun r s => r.count = s.count → S r s) (sortStats l)
  | [], _ => List.Pairwise.nil
  | x :: xs, hp => by
    rw [List.pairwise_cons] at hp
    exact insertByCount_stable S x (sortStats xs) (sortStats_stable S xs hp.2)
      (fun y hy _ => hp.1 y ((sortStats_perm xs).mem_iff.mp hy))

theorem increment_fst (m : String) (p : String × Nat) :
    (if p.1 == m then (p.1, p.2 + 1) else p).1 = p.1 := by
  by_cases h : p.1 = m <;> simp [h]

theorem increment_keys (m : String) (acc : List (String × Nat)) :
    ((acc.map (fun p => if p.1 == m then (p.1, p.2 + 1) else p)).map Prod.fst)
      = acc.map Prod.fst := by
  rw [List.map_map]
  exact List.map_congr_left (fun p _ => increment_fst m p)

theorem sum_map_increment (m : String) : ∀ (acc : List (String × Nat)),
    (acc.map Prod.fst).Nodup → (∃ p ∈ acc, p.1 = m) →
    ((acc.map (fun p => if p.1 == m then (p.1, p.2 + 1) else p)).map
      (fun p => p.2)).sum = (acc.map (fun p => p.2)).sum + 1
  | [], _, hex => by
    rcases hex with ⟨p, hp, -⟩
    simp at hp
  | q :: t, hnd, hex => by
    rw [List.map_cons, List.nodup_cons] at hnd
    by_cases hq : q.1 = m
    · have htail : ∀ r ∈ t, r.1 ≠ m := fun r hr he =>
        hnd.1 (by rw [hq, ← he]; exact List.mem_map_of_mem Prod.fst hr)
      have hid : t.map (fun p => if p.1 == m then (p.1, p.2 + 1) else p) = t := by
        have h2 : ∀ r ∈ t, (if r.1 == m then (r.1, r.2 + 1) else r) = id r :=
          fun r hr => by simp [htail r hr]
        rw [List.map_congr_left h2, List.map_id]
      simp only [List.map_cons, List.sum_cons]
      rw [hid]
      simp [hq]
      omega
    · have hex2 : ∃ p ∈ t, p.1 = m := by
        rcases hex with ⟨p, hp, hpm⟩
        rcases List.mem_cons.mp hp with rfl | hp2
        · exact absurd hpm hq
        · exact ⟨p, hp2, hpm⟩
      have ih := sum_map_increment m t hnd.2 hex2
      simp only [List.map_cons, List.sum_cons]
      rw [ih]
      simp [hq]
      omega

theorem tallyStep_sum (acc : List (String × Nat)) (m : String)
    (hnd : (acc.map Prod.fst).Nodup) :
    ((tallyStep acc m).map (fun p => p.2)).sum
      = (acc.map (fun p => p.2)).sum + 1 := by
  rw [tallyStep]
  by_cases h : acc.any (fun p => p.1 == m) = true
  · rw [if_pos h]
    rcases List.any_eq_true.mp h with ⟨p, hp, hpm⟩
    exact sum_map_increment m acc hnd ⟨p, hp, by simpa using hpm⟩
  · rw [if_neg h]
    simp

theorem tallyStep_nodup (acc : List (String × Nat)) (m : String)
    (hnd : (acc.map Prod.fst).Nodup) :
    ((tallyStep acc m).map Prod.fst).Nodup := by
  rw [tallyStep]
  by_cases h : acc.any (fun p => p.1 == m) = true
  · rw [if_pos h, increment_keys]
    exact hnd
  · rw [if_neg h, List.map_append]
    have hnone : ∀ (x : Nat), (m, x) ∉ acc := by simpa using h
    have hnotmem : m ∉ acc.map Prod.fst := by
      intro hmem
      rcases List.mem_map.mp hmem with ⟨p, hp, hpm⟩
      exact hnone p.2 (by rwa [show (m, p.2) = p from by rw [← hpm]])
    simp [List.nodup_append, hnd, hnotmem]

theorem tally_sum_nodup : ∀ (suf : List String) (acc : List (String × Nat)),
    (acc.map Prod.fst).Nodup →
    ((suf.foldl tallyStep acc).map Prod.fst).Nodup ∧
    ((suf.foldl tallyStep acc).map (fun p => p.2)).sum
      = (acc.map (fun p => p.2)).sum + suf.length
  | [], _, hnd => ⟨hnd, by simp⟩
  | m :: suf, acc, hnd => by
    have hstep := tallyStep_nodup acc m hnd
    have hsum := tallyStep_sum acc m hnd
    have ih := tally_sum_nodup suf (tallyStep acc m) hstep
    rw [List.foldl_cons]
    refine ⟨ih.1, ?_⟩
    rw [ih.2, hsum]
    simp
    omega

theorem moodTally_sum (l : List String) :
    ((moodTally l).map (fun p => p.2)).sum = l.length := by
  simpa [moodTally] using (tally_sum_nodup l [] (by simp)).2

theorem tally_entries (base : List String) : ∀ (suf : List String)
    (acc : List (String × Nat)),
    (∀ p ∈ acc, 1 ≤ p.2 ∧ p.1 ∈ base) → (∀ m ∈ suf, m ∈ base) →
    ∀ p ∈ suf.foldl tallyStep acc, 1 ≤ p.2 ∧ p.1 ∈ base
  | [], _, hacc, _ => by simpa using hacc
  | m :: suf, acc, hacc, hsuf => by
    rw [List.foldl_cons]
    refine tally_entries base suf (tallyStep acc m) ?_
      (fun x hx => hsuf x (List.mem_cons_of_mem _ hx))
    intro p hp
    rw [tallyStep] at hp
    by_cases h : acc.any (fun q => q.1 == m) = true
    · rw [if_pos h] at hp
      rcases List.mem_map.mp hp with ⟨q, hq, rfl⟩
      have hbase := hacc q hq
      by_cases hqm : q.1 = m
      · have h1 : (if q.1 == m then (q.1, q.2 + 1) else q) = (q.1, q.2 + 1) := by
          simp [hqm]
        rw [h1]
        exact ⟨Nat.succ_le_succ (Nat.zero_le q.2), hbase.2⟩
      · have h1 : (if q.1 == m then (q.1, q.2 + 1) else q) = q := by
          simp [hqm]
        rw [h1]
        exact hbase
    · rw [if_neg h] at hp
      rcases List.mem_append.mp hp with hp2 | hp2
      · exact hacc p hp2
      · have hpm : p = (m, 1) := by simpa using hp2
        rw [hpm]
        constructor
        · exact Nat.le_refl 1
        · exact hsuf m (List.mem_cons_self _ _)

theorem moodTally_entries (l : List String) :
    ∀ p ∈ moodTally l, 1 ≤ p.2 ∧ p.1 ∈ l :=
  tally_entries l l [] (by simp) (fun _ hm => hm)

theorem indexOf_append_lt : ∀ (l1 l2 : List String) (a : String), a ∈ l1 →
    (l1 ++ l2).indexOf a < l1.length
  | b :: t, l2, a, h => by
    rw [List.cons_append]
    by_cases hab : a = b
    · subst hab
      simp [List.indexOf_cons_self]
    · rw [List.indexOf_cons_ne _ (Ne.symm hab)]
      have hmem : a ∈ t := by
        rcases List.mem_cons.mp h with rfl | h2
        · exact absurd rfl hab
        · exact h2
      have := indexOf_append_lt t l2 a hmem
      simp only [List.length_cons]
      omega

theorem indexOf_append_not_mem : ∀ (l1 l2 : List String) (a : String), a ∉ l1 →
    (l1 ++ l2).indexOf a = l1.length + l2.indexOf a
  | [], l2, a, _ => by simp
  | b :: t, l2, a, h => by
    have hab : a ≠ b := fun he => h (he ▸ List.mem_cons_self b t)
    rw [List.cons_append, List.indexOf_cons_ne _ (Ne.symm hab),
      indexOf_append_not_mem t l2 a (fun ht => h (List.mem_cons_of_mem _ ht))]
    simp only [List.length_cons]
    omega

theorem tally_pairwise_aux (L : List String) : ∀ (suf pre : List String)
    (acc : List (String × Nat)),
    L = pre ++ suf →
    (∀ k, k ∈ acc.map Prod.fst ↔ k ∈ pre) →
    List.Pairwise (fun p q => L.indexOf p.1 < L.indexOf q.1) acc →
    List.Pairwise (fun p q => L.indexOf p.1 < L.indexOf q.1)
      (suf.foldl tallyStep acc)
  | [], _, _, _, _, hp => by simpa using hp
  | m :: suf, pre, acc, hL, hkeys, hp => by
    rw [List.foldl_cons]
    refine tally_pairwise_aux L suf (pre ++ [m]) (tallyStep acc m)
      (by rw [hL, List.append_assoc]; rfl) ?_ ?_
    · intro k
      rw [tallyStep]
      by_cases h : acc.any (fun q => q.1 == m) = true
      · rw [if_pos h, increment_keys]
        have hm : m ∈ pre := by
          rcases List.any_eq_true.mp h with ⟨p, hpmem, hpm⟩
          exact (hkeys m).mp (List.mem_map.mpr ⟨p, hpmem, by simpa using hpm⟩)
        rw [hkeys k]
        constructor
        · exact fun hk => List.mem_append.mpr (Or.inl hk)
        · intro hk
          rcases List.mem_append.mp hk with hk2 | hk2
          · exact hk2
          · have : k = m := by simpa using hk2
            exact this ▸ hm
      · rw [if_neg h, List.map_append]
        simp only [List.mem_append, hkeys k]
        simp
    · rw [tallyStep]
      by_cases h : acc.any (fun q => q.1 == m) = true
      · rw [if_pos h]
        exact hp.map _ (fun a b hab => by
          rw [increment_fst m a, increment_fst m b]; exact hab)
      · rw [if_neg h, List.pairwise_append]
        refine ⟨hp, List.pairwise_singleton _ _, ?_⟩
        intro p hpmem q hq
        have hq2 : q = (m, 1) := by simpa using hq
        subst hq2
        have hppre : p.1 ∈ pre :=
          (hkeys p.1).mp (List.mem_map_of_mem Prod.fst hpmem)
        have hmpre : m ∉ pre := by
          intro hm
          have hmk : m ∈ acc.map Prod.fst := (hkeys m).mpr hm
          rcases List.mem_map.mp hmk with ⟨r, hr, hrm⟩
          have hnone : ∀ (x : Nat), (m, x) ∉ acc := by simpa using h
          exact hnone r.2 (by rwa [show (m, r.2) = r from by rw [← hrm]])
        rw [hL]
        calc (pre ++ m :: suf).indexOf p.1
            < pre.length := indexOf_append_lt pre _ p.1 hppre
          _ ≤ (pre ++ m :: suf).indexOf (m, 1).1 := by
              rw [indexOf_append_not_mem pre _ m hmpre]
              simp [List.indexOf_cons_self]

theorem moodTally_pairwise_idx (l : List String) :
    List.Pairwise (fun p q => l.indexOf p.1 < l.indexOf q.1) (moodTally l) := by
  simpa [moodTally] using
    tally_pairwise_aux l l [] [] (by simp) (by simp) List.Pairwise.nil

theorem sum_counts_cast : ∀ (l : List (String × Nat)) (c : ℚ),
    (l.map (fun p => (p.2 : ℚ) * c)).sum
      = Nat.cast ((l.map (fun p => p.2)).sum) * c
  | [], _ => by simp
  | p :: t, c => by
    simp only [List.map_cons, List.sum_cons, sum_counts_cast t c]
    push_cast
    ring

/-! ## Claims -/

/-- **C1.** The UI's quote creation (`handleAddQuote`) sets the new row's
`user_id` to the caller's *own* id, and the migration's INSERT policy
"Users can create quotes for partner" passes a row only when its `user_id`
equals the caller's `partner_id`; hence for any caller whose partner is
not the caller themselves, every quote insert the UI issues is rejected by
the backend — quote creation through the UI can never succeed, while both
the spec and the policy intend the row to target the partner's id. -/
theorem quote_creation_self_addressed (uid pid : Nat) (text : String)
    (htext : trimChars text ≠ "") (hpartner : pid ≠ uid) :
    (handleAddQuote text (some uid)).request = some ⟨uid, text⟩ ∧
    quotesInsertAllowed (some pid) uid = false := by
  constructor
  · simp [handleAddQuote, htext]
  · simp [quotesInsertAllowed]
    exact fun h => (hpartner h.symm).elim

theorem quote_creation_self_addressed_witness :
    (handleAddQuote "I love you" (some 1)).request = some ⟨1, "I love you"⟩ ∧
    quotesInsertAllowed (some 2) 1 = false :=
  quote_creation_self_addressed 1 2 "I love you" (by decide) (by decide)

/-- **C2 (counterexample).** A user with id 1 and no linked partner who
owns one post and fetches with audience `theirs` gets their own post back,
not the empty list: the source attaches no owner filter in this branch,
so the backend returns every RLS-visible row. -/
theorem theirs_without_partner_shows_own_posts :
    loadPostsRows .theirs 1 none [⟨10, 1⟩] = [⟨10, 1⟩] ∧
    loadPostsRows .theirs 1 none [⟨10, 1⟩] ≠ [] := by decide

/-- **C2 (amended).** For every audience, every row a `loadPosts` fetch
returns is owned by the caller or by the linked partner; and when no
partner is linked the fetch returns exactly the caller's own posts for
*every* audience — in particular audience `theirs` applies no client-side
owner filter and yields the caller's own RLS-visible posts rather than no
rows (and no error). -/
theorem audience_filter_scope (f : TimelineFilter) (viewer : Nat)
    (partnerId : Option Nat) (db : List PostRow) :
    (∀ post ∈ loadPostsRows f viewer partnerId db,
      post.user_id = viewer ∨ partnerId = some post.user_id) ∧
    (partnerId = none →
      loadPostsRows f viewer partnerId db =
        db.filter (fun post => post.user_id == viewer)) := by
  constructor
  · intro post hmem
    rw [loadPostsRows, List.mem_filter] at hmem
    have hvis := hmem.2
    rw [Bool.and_eq_true] at hvis
    have := hvis.1
    rw [postsRlsVisible, Bool.or_eq_true] at this
    rcases this with h | h
    · exact Or.inl (by simpa using h)
    · exact Or.inr (by simpa using h)
  · rintro rfl
    apply List.filter_congr
    intro post _
    cases f <;>
      simp [postsQueryFilter, postsRlsVisible, List.contains, List.elem]
    all_goals (intro h; simp [h])

theorem audience_filter_scope_witness :
    ((⟨10, 1⟩ : PostRow).user_id = 1 ∨ (none : Option Nat) = some (10, 1).2) ∧
    loadPostsRows .theirs 1 none [⟨10, 1⟩] =
      List.filter (fun post => post.user_id == 1) [⟨10, 1⟩] :=
  ⟨(audience_filter_scope .theirs 1 none [⟨10, 1⟩]).1 ⟨10, 1⟩ (by decide),
   (audience_filter_scope .theirs 1 none [⟨10, 1⟩]).2 rfl⟩

/-- **C3.** `toggleReaction(p, k)`: with no existing reaction by the
caller on the post it inserts one of kind `k`; with an existing reaction
of the same kind it deletes it; with one of a different kind it updates it
in place to `k`; every toggle preserves the at-most-one-reaction-per-
(post, caller) invariant; and from a no-reaction state two consecutive
identical toggles end with no reaction while a third ends with exactly one
reaction of that kind. -/
theorem reaction_toggle_spec (db : List ReactionRow) (u p : Nat)
    (k : ReactionType) :
    (∀ fid, reactionsFor db p u = [] →
      handleReaction db u p k fid = db ++ [⟨fid, p, u, k⟩] ∧
      reactionsFor (handleReaction db u p k fid) p u = [⟨fid, p, u, k⟩]) ∧
    (∀ ex fid, reactionsFor db p u = [ex] → ex.reaction_type = k →
      reactionsFor (handleReaction db u p k fid) p u = []) ∧
    (∀ ex fid, reactionsFor db p u = [ex] → ex.reaction_type ≠ k →
      reactionsFor (handleReaction db u p k fid) p u =
        [{ ex with reaction_type := k }]) ∧
    (∀ fid, AtMostOneReaction db →
      AtMostOneReaction (handleReaction db u p k fid)) ∧
    (∀ f1 f2 f3, reactionsFor db p u = [] →
      reactionsFor (handleReaction (handleReaction db u p k f1) u p k f2) p u
        = [] ∧
      reactionsFor (handleReaction
        (handleReaction (handleReaction db u p k f1) u p k f2) u p k f3) p u
        = [⟨f3, p, u, k⟩]) := by
  refine ⟨?_, ?_, ?_, ?_, ?_⟩
  · exact fun fid h =>
      ⟨handleReaction_insert db u p k fid h, reactionsFor_insert db u p k fid h⟩
  · exact fun ex fid h hk => reactionsFor_toggle_off db u p k fid ex h hk
  · exact fun ex fid h hk => reactionsFor_switch db u p k fid ex h hk
  · exact fun fid hinv => handleReaction_preserves_invariant db u p k fid hinv
  · intro f1 f2 f3 h
    have h1 := reactionsFor_insert db u p k f1 h
    have h2 := reactionsFor_toggle_off (handleReaction db u p k f1) u p k f2
      ⟨f1, p, u, k⟩ h1 rfl
    exact ⟨h2, reactionsFor_insert _ u p k f3 h2⟩

theorem reaction_toggle_spec_witness :
    reactionsFor (handleReaction
      (handleReaction ([] : List ReactionRow) 1 2 .love 5) 1 2 .love 6) 2 1
      = [] ∧
    reactionsFor (handleReaction (handleReaction
      (handleReaction ([] : List ReactionRow) 1 2 .love 5) 1 2 .love 6)
      1 2 .love 7) 2 1 = [⟨7, 2, 1, .love⟩] :=
  (reaction_toggle_spec [] 1 2 .love).2.2.2.2 5 6 7 (by decide)

/-- **C4.** The client issues every diary write against the relation
`daily_diary` while the migration creates only `daily_diaries`, so against
this schema every `saveDiary` call with non-blank content is answered
relation-not-found: the error is only logged, nothing is inserted or
updated, any sequence of consecutive saves leaves the diary state
unchanged, and starting from the empty state zero entries — not exactly
one holding the last call's content — exist for (caller, date)
afterwards. -/
theorem diary_save_wrong_table (db : List DiaryRow) (userId : Nat)
    (today content mood : String) (fid : Nat) (calls : List SaveCall)
    (hc : trimChars content ≠ "") :
    diaryTableName ∉ migrationTables ∧
    handleSave migrationTables db userId today content mood fid = (db, true) ∧
    saveDiaryRun migrationTables db userId today calls = db ∧
    diaryEntriesFor (saveDiaryRun migrationTables [] userId today calls)
      userId today = [] := by
  refine ⟨by decide, ?_, saveDiaryRun_missing_relation userId today calls db, ?_⟩
  · rw [handleSave, if_neg hc,
      if_neg (by decide : ¬(diaryTableName ∈ migrationTables))]
  · rw [saveDiaryRun_missing_relation userId today calls []]
    rfl

theorem diary_save_wrong_table_witness :
    diaryTableName ∉ migrationTables ∧
    handleSave migrationTables [] 1 "2026-01-01" "hello" "happy" 7
      = ([], true) ∧
    saveDiaryRun migrationTables [] 1 "2026-01-01"
      [⟨"hello", "happy", 7⟩, ⟨"bye", "sad", 8⟩] = [] ∧
    diaryEntriesFor (saveDiaryRun migrationTables [] 1 "2026-01-01"
      [⟨"hello", "happy", 7⟩, ⟨"bye", "sad", 8⟩]) 1 "2026-01-01" = [] :=
  diary_save_wrong_table [] 1 "2026-01-01" "hello" "happy" 7
    [⟨"hello", "happy", 7⟩, ⟨"bye", "sad", 8⟩] (by decide)

/-- **C6 (counterexample).** A failed re-fetch does not leave the
collection holding the empty sequence: a Timeline state already showing
one post keeps that post after the fetch fails (the `catch` branch never
touches `posts`). -/
theorem fetch_failure_not_emptied :
    (loadPostsStep [⟨1, 1⟩] false (.error "network")).1.1 = [⟨1, 1⟩] ∧
    (loadPostsStep [⟨1, 1⟩] false (.error "network")).1.1 ≠ [] := by
  constructor <;> decide

/-- **C6 (amended).** A failed fetch leaves the collection's items exactly
as they were — which is the empty sequence when the very first fetch fails,
since the page initialises `posts` to `[]` — clears the loading flag
(`finally`), and logs the error (`console.error`) instead of retrying or
propagating it; a successful fetch replaces the items wholesale. -/
theorem fetch_failure_degrades_in_place (posts : List PostRow) (loading : Bool)
    (e : String) (data : List PostRow) :
    loadPostsStep posts loading (.error e) = ((posts, false), true) ∧
    loadPostsStep initialTimelinePosts true (.error e) = (([], false), true) ∧
    loadPostsStep posts loading (.ok data) = ((data, false), false) := by
  exact ⟨rfl, rfl, rfl⟩

/-- **C7 (counterexample).** Submitting a whitespace-only post is rejected
without any error being reported to the caller: the guard is a bare
`return`, so no `ValidationError` (nor anything else) is surfaced — the
claim's "fails with a ValidationError reported to the caller" is false. -/
theorem blank_post_rejected_without_error :
    handleSubmitPost " " "happy" "" "" (some 1) =
      { request := none, errorReported := false } := by decide

/-- **C7 (amended).** For every create operation (post content, song
title and url, photo url, quote text, chat message text), a call whose
required field is blank or whitespace-only is a silent no-op: no insert
request is issued and no error is reported to the caller. -/
theorem blank_required_field_silent_noop :
    (∀ content mood img song uid, trimChars content = "" →
      handleSubmitPost content mood img song (some uid) = ⟨none, false⟩) ∧
    (∀ title url uid, trimChars title = "" ∨ trimChars url = "" →
      handleAddSong title url (some uid) = ⟨none, false⟩) ∧
    (∀ purl cap uid, trimChars purl = "" →
      handleAddPhoto purl cap (some uid) = ⟨none, false⟩) ∧
    (∀ qt uid, trimChars qt = "" →
      handleAddQuote qt (some uid) = ⟨none, false⟩) ∧
    (∀ msg uid, trimChars msg = "" →
      handleSendMessage msg (some uid) = ⟨none, false⟩) := by
  refine ⟨?_, ?_, ?_, ?_, ?_⟩
  · intro content mood img song uid h; simp [handleSubmitPost, h]
  · intro title url uid h
    rcases h with h | h <;> simp [handleAddSong, h]
  · intro purl cap uid h; simp [handleAddPhoto, h]
  · intro qt uid h; simp [handleAddQuote, h]
  · intro msg uid h; simp [handleSendMessage, h]

theorem blank_required_field_silent_noop_witness :
    handleSubmitPost "  " "happy" "" "" (some 1) = ⟨none, false⟩ ∧
    handleAddSong "ok" " " (some 1) = ⟨none, false⟩ ∧
    handleAddPhoto " " "" (some 1) = ⟨none, false⟩ ∧
    handleAddQuote "" (some 1) = ⟨none, false⟩ ∧
    handleSendMessage " " (some 1) = ⟨none, false⟩ :=
  ⟨blank_required_field_silent_noop.1 "  " "happy" "" "" 1 (by decide),
   blank_required_field_silent_noop.2.1 "ok" " " 1 (Or.inr (by decide)),
   blank_required_field_silent_noop.2.2.1 " " "" 1 (by decide),
   blank_required_field_silent_noop.2.2.2.1 "" 1 (by decide),
   blank_required_field_silent_noop.2.2.2.2 " " 1 (by decide)⟩

/-- **C8 (counterexample).** The one-month-ago day is computed by
`setMonth(getMonth() - 1)`, not by going back exactly 30 days: from
March 15 2026 (JS month index 2) the filter day is February 15 2026,
which is 28 days earlier, not 30. -/
theorem month_filter_not_thirty_days :
    setMonthMinusOne ⟨2026, 2, 15⟩ = ⟨2026, 1, 15⟩ ∧
    daysFromCivil ⟨2026, 2, 15⟩ - daysFromCivil ⟨2026, 1, 15⟩ = 28 := by
  constructor <;> decide

/-- **C8 (amended).** The Memory Lane 'one month ago' filter selects a
single-day window — bounded below by that day's 00:00:00 and above by the
same day's 23:59:59, not a month-long range — whose day is obtained by
decrementing the current date's month with JS rollover semantics (one
calendar month back, which is 28–31 days, not always exactly 30): a
timestamp with a valid second-of-day lies in the window iff its calendar
day is exactly `setMonthMinusOne today`. -/
theorem month_filter_single_day (today dt : JsDate) (s : Nat)
    (hs : s ≤ 86399) :
    monthFilterWindow today =
      ((setMonthMinusOne today, 0), (setMonthMinusOne today, 86399)) ∧
    (tsInWindow (monthFilterWindow today) (dt, s) ↔ dt = setMonthMinusOne today) := by
  refine ⟨rfl, ?_⟩
  constructor
  · rintro ⟨h1, h2⟩
    rcases h1 with h1 | ⟨h1, -⟩
    · rcases h2 with h2 | ⟨h2, -⟩
      · exact (dateLt_asymm h1 h2).elim
      · exact (dateLt_irrefl (h2 ▸ h1)).elim
    · exact h1.symm
  · rintro rfl
    exact ⟨Or.inr ⟨rfl, Nat.zero_le _⟩, Or.inr ⟨rfl, hs⟩⟩

theorem month_filter_single_day_witness :
    tsInWindow (monthFilterWindow ⟨2026, 2, 15⟩) (⟨2026, 1, 15⟩, 0) :=
  ((month_filter_single_day ⟨2026, 2, 15⟩ ⟨2026, 1, 15⟩ 0 (by decide)).2).mpr
    (by decide)

/-- **C9.** A photo-delete call whose caller differs from the row's owner
is a silent no-op at the UI guard: no request is issued, no error raised,
the table is unchanged and in particular the owner's row is still
present. -/
theorem delete_photo_nonowner_noop (user : Option Nat) (photoId photoUserId : Nat)
    (db : List PhotoRow) (h : user ≠ some photoUserId) :
    handleDeletePhoto user photoId photoUserId db = (db, false) ∧
    ∀ p ∈ db, p ∈ (handleDeletePhoto user photoId photoUserId db).1 := by
  have hres : handleDeletePhoto user photoId photoUserId db = (db, false) := by
    match user with
    | none => rfl
    | some uid =>
      have : uid ≠ photoUserId := fun he => h (by rw [he])
      simp [handleDeletePhoto, this]
  exact ⟨hres, fun p hp => by rw [hres]; exact hp⟩

theorem delete_photo_nonowner_noop_witness :
    handleDeletePhoto (some 1) 5 2 [⟨5, 2⟩] = ([⟨5, 2⟩], false) ∧
    (⟨5, 2⟩ : PhotoRow) ∈ (handleDeletePhoto (some 1) 5 2 [⟨5, 2⟩]).1 :=
  ⟨(delete_photo_nonowner_noop (some 1) 5 2 [⟨5, 2⟩] (by decide)).1,
   (delete_photo_nonowner_noop (some 1) 5 2 [⟨5, 2⟩] (by decide)).2 ⟨5, 2⟩ (by decide)⟩

/-- **C5.** `calculateMoodStats`: the empty input yields the empty
sequence; the output is sorted by count descending; every record's
percentage equals count / total × 100; the percentages sum to exactly 100
(the rational model is exact, JS floats only round) whenever the input is
non-empty; and ties are broken by first-encountered mood — records of
equal count appear in order of the first occurrence of their mood in the
input (JS objects keep string keys in insertion order and
`Array.prototype.sort` is stable). -/
theorem mood_histogram_spec (moods : List String) :
    (moods = [] → calculateMoodStats moods = []) ∧
    List.Pairwise (fun r s => s.count ≤ r.count) (calculateMoodStats moods) ∧
    (∀ r ∈ calculateMoodStats moods,
      r.percentage = (r.count : ℚ) / (moods.length : ℚ) * 100) ∧
    (moods ≠ [] →
      ((calculateMoodStats moods).map (fun r => r.percentage)).sum = 100) ∧
    List.Pairwise (fun r s => r.count = s.count →
      moods.indexOf r.mood < moods.indexOf s.mood) (calculateMoodStats moods) := by
  refine ⟨?_, ?_, ?_, ?_, ?_⟩
  · rintro rfl
    rfl
  · exact sortStats_sorted _
  · intro r hr
    have hr2 : r ∈ (moodTally moods).map (moodStatsOf moods.length) :=
      (sortStats_perm _).mem_iff.mp hr
    rcases List.mem_map.mp hr2 with ⟨p, hp, rfl⟩
    rcases moods with - | ⟨m0, mrest⟩
    · simp [moodTally] at hp
    · simp [moodStatsOf]
  · intro hne
    have hlen0 : moods.length ≠ 0 := fun h => hne (List.length_eq_zero.mp h)
    have hlenq : ((moods.length : ℚ)) ≠ 0 := by exact_mod_cast hlen0
    have hmapped : ((calculateMoodStats moods).map (fun r => r.percentage)).sum
        = (((moodTally moods).map (moodStatsOf moods.length)).map
            (fun r => r.percentage)).sum :=
      ((sortStats_perm _).map (fun r => r.percentage)).sum_eq
    rw [hmapped, List.map_map]
    have hfun : ∀ p ∈ moodTally moods,
        ((fun r => r.percentage) ∘ moodStatsOf moods.length) p
          = (p.2 : ℚ) * (100 / (moods.length : ℚ)) := by
      intro p _
      simp only [Function.comp, moodStatsOf, Nat.pos_of_ne_zero hlen0, if_pos]
      ring
    rw [List.map_congr_left hfun, sum_counts_cast, moodTally_sum]
    field_simp
  · exact sortStats_stable _ _
      ((moodTally_pairwise_idx moods).map (moodStatsOf moods.length)
        (fun a b hab => by simpa [moodStatsOf] using hab))

theorem mood_histogram_spec_witness :
    calculateMoodStats [] = [] ∧
    ((calculateMoodStats ["happy", "sad", "happy"]).map
      (fun r => r.percentage)).sum = 100 :=
  ⟨(mood_histogram_spec []).1 rfl,
   (mood_histogram_spec ["happy", "sad", "happy"]).2.2.2.1 (by decide)⟩

/-- **C10.** Every record of the mood histogram has count ≥ 1 and a mood
that occurs in the input (absent moods are omitted entirely, never listed
with count 0), and the counts sum to the length of the input sequence. -/
theorem mood_histogram_counts (moods : List String) :
    (∀ r ∈ calculateMoodStats moods, 1 ≤ r.count ∧ r.mood ∈ moods) ∧
    ((calculateMoodStats moods).map (fun r => r.count)).sum = moods.length := by
  constructor
  · intro r hr
    have hr2 : r ∈ (moodTally moods).map (moodStatsOf moods.length) :=
      (sortStats_perm _).mem_iff.mp hr
    rcases List.mem_map.mp hr2 with ⟨p, hp, rfl⟩
    exact moodTally_entries moods p hp
  · have h1 : ((calculateMoodStats moods).map (fun r => r.count)).sum
        = (((moodTally moods).map (moodStatsOf moods.length)).map
            (fun r => r.count)).sum :=
      ((sortStats_perm _).map (fun r => r.count)).sum_eq
    rw [h1, List.map_map]
    have h2 : ((fun r => r.count) ∘ moodStatsOf moods.length)
        = fun p : String × Nat => p.2 := rfl
    rw [h2, moodTally_sum]

theorem mood_histogram_counts_witness :
    (1 ≤ (MoodStats.mk "happy" 1 100).count ∧
      (MoodStats.mk "happy" 1 100).mood ∈ ["happy"]) ∧
    ((calculateMoodStats ["happy"]).map (fun r => r.count)).sum = 1 :=
  ⟨(mood_histogram_counts ["happy"]).1 ⟨"happy", 1, 100⟩ (by
      have h : calculateMoodStats ["happy"] = [⟨"happy", 1, 100⟩] := by
        simp [calculateMoodStats, moodTally, tallyStep, sortStats,
          insertByCount, moodStatsOf]
      rw [h]
      exact List.mem_singleton.mpr rfl),
   (mood_histogram_counts ["happy"]).2⟩

end DiaryForTwo
